import Mathlib

/-!
# Verification of the markdown-tts offset-tracking engine

Shallow embedding of `src/tts/highlighter.py` (sentence segmentation and
the offset tracker `TTSHighlighter`) and of the word/sentence span
annotation pass of `src/markdown/renderer.py`
(`MarkdownRenderer._process_text_node`), together with proofs of the
spec's claims about them.

Python strings are modelled as `List Char`; Python `int` arguments are
modelled as `Int`; `None` becomes `Option`.
-/

namespace MarkdownTTS

/-- Python `str.isspace` restricted to the ASCII whitespace characters
(space, tab, newline, carriage return, vertical tab, form feed); all
inputs in this development are ASCII. -/
def pyIsSpace (c : Char) : Bool :=
  c = ' ' || c = '\t' || c = '\n' || c = '\r' ||
    c = Char.ofNat 11 || c = Char.ofNat 12

/-- Membership in the regex character class `[.!?]` used by
`SENTENCE_END_PATTERN`. -/
def isTerm (c : Char) : Bool :=
  c = '.' || c = '!' || c = '?'

/-- Python `str.strip()`: remove leading and trailing whitespace. -/
def pyStrip (l : List Char) : List Char :=
  ((l.dropWhile pyIsSpace).reverse.dropWhile pyIsSpace).reverse

/-- Python `str.split()` (no separator argument): the number of
whitespace-delimited non-empty tokens.  The Boolean argument records
whether the previous character was inside a token. -/
def pySplitCountAux : List Char → Bool → Nat
  | [], _ => 0
  | c :: cs, inWord =>
    if pyIsSpace c then pySplitCountAux cs false
    else (if inWord then 0 else 1) + pySplitCountAux cs true

/-- `len(s.split())` for a Python string `s`. -/
def pySplitCount (l : List Char) : Nat :=
  pySplitCountAux l false

/-- End positions (`match.end()`) of the successive matches of
`re.finditer(r'[.!?]+', text)`, i.e. of the maximal runs of sentence
terminators.  `i` is the absolute position of the head of the remaining
list; `prev` records whether the previous character was a terminator
(so that a run's end is emitted when the run stops). -/
def matchEndsAux : List Char → Nat → Bool → List Nat
  | [], i, prev => if prev then [i] else []
  | c :: cs, i, prev =>
    if isTerm c then matchEndsAux cs (i + 1) true
    else (if prev then [i] else []) ++ matchEndsAux cs (i + 1) false

/-- The list of `match.end()` positions of
`SENTENCE_END_PATTERN.finditer(text)`. -/
def matchEnds (t : List Char) : List Nat :=
  matchEndsAux t 0 false

/-- The `Sentence` dataclass of `highlighter.py`: text, start/end
character offsets in the original text (`end` exclusive) and 0-based
index. -/
structure Sentence where
  text : List Char
  start : Nat
  stop : Nat
  index : Nat
deriving DecidableEq, Repr

/-- The `while actual_start < len(text) and text[actual_start].isspace()`
loop of `_split_sentences`: the first non-whitespace position at or
after `cs` (or the end of the remaining text). -/
def actualStart (t : List Char) (cs : Nat) : Nat :=
  cs + ((t.drop cs).takeWhile pyIsSpace).length

/-- The body of the `for match in ...finditer(text)` loop of
`TTSHighlighter._split_sentences`, followed by the trailing-remainder
handling.  `es` is the list of remaining match end positions, `cs` the
running `current_start`, `acc` the sentences built so far. -/
def segAux (t : List Char) : List Nat → Nat → List Sentence → List Sentence
  | [], cs, acc =>
    let remaining := pyStrip (t.drop cs)
    if remaining = [] then acc
    else acc ++ [⟨remaining, actualStart t cs, t.length, acc.length⟩]
  | e :: es, cs, acc =>
    let sentenceText := pyStrip ((t.drop cs).take (e - cs))
    if sentenceText = [] then segAux t es e acc
    else segAux t es e (acc ++ [⟨sentenceText, actualStart t cs, e, acc.length⟩])

/-- `TTSHighlighter._split_sentences`: split `t` into sentences at
maximal runs of `.`/`!`/`?`. -/
def split_sentences (t : List Char) : List Sentence :=
  if t.isEmpty then [] else segAux t (matchEnds t) 0 []

/-- The state of a `TTSHighlighter` instance: the original text, the
sentence table built at construction and the mutable cursor. -/
structure TTSHighlighter where
  text : List Char
  sentences : List Sentence
  current_position : Int
deriving DecidableEq, Repr

/-- `TTSHighlighter.__init__`: store the text, split it into sentences,
start the cursor at 0. -/
def mkTTSHighlighter (t : List Char) : TTSHighlighter :=
  ⟨t, split_sentences t, 0⟩

/-- `TTSHighlighter.sentence_count`. -/
def sentence_count (h : TTSHighlighter) : Nat :=
  h.sentences.length

/-- `TTSHighlighter.get_sentence_for_offset`: linear scan for the first
sentence whose `[start, stop)` span contains the offset; end-of-text
fallback to the last sentence; otherwise `-1`. -/
def get_sentence_for_offset (h : TTSHighlighter) (char_offset : Int) : Int :=
  if h.sentences.isEmpty then -1
  else
    match h.sentences.find?
        (fun s => decide ((s.start : Int) ≤ char_offset) &&
          decide (char_offset < (s.stop : Int))) with
    | some s => s.index
    | none =>
      if (h.text.length : Int) ≤ char_offset then
        match h.sentences.getLast? with
        | some s => s.index
        | none => -1
      else -1

/-- `TTSHighlighter.get_word_offset`: the number of whitespace-delimited
words of the text strictly before `start` (`end` is unused). -/
def get_word_offset (h : TTSHighlighter) (start «end» : Int) : Nat :=
  if start ≤ 0 then 0
  else pySplitCount (h.text.take start.toNat)

/-- `TTSHighlighter.get_sentence_by_index`: bounds-checked lookup. -/
def get_sentence_by_index (h : TTSHighlighter) (idx : Int) : Option Sentence :=
  if 0 ≤ idx ∧ idx < (h.sentences.length : Int) then
    h.sentences.get? idx.toNat
  else none

/-- `TTSHighlighter.get_text_from_sentence`: the original text from the
given sentence's start to the end, or `[]` for an invalid index. -/
def get_text_from_sentence (h : TTSHighlighter) (sentence_idx : Int) : List Char :=
  match get_sentence_by_index h sentence_idx with
  | none => []
  | some s => h.text.drop s.start

/-- `TTSHighlighter.update_position`: clamp the new cursor to `≥ 0`. -/
def update_position (h : TTSHighlighter) (char_offset : Int) : TTSHighlighter :=
  { h with current_position := max 0 char_offset }

/-! ## The span annotator of `renderer.py` (`_process_text_node`)

`re.findall(r'(\S+)(\s*)', sentence)` yields the `(word, trailing
whitespace)` pairs of a sentence; `re.findall(r'([^.!?]*[.!?]+\s*)',
text)` yields the sentence chunks of a text node (content up to and
including a terminator run plus its trailing whitespace), and
`pattern.sub('', text)` leaves the unterminated remainder.  The
recursions are fuelled; the length of the input is always enough fuel
because each step consumes at least one character. -/

/-- Matches of `(\S+)(\s*)`: the (word, trailing whitespace) pairs. -/
def wordsPairsAux : Nat → List Char → List (List Char × List Char)
  | 0, _ => []
  | fuel + 1, l =>
    match l.dropWhile pyIsSpace with
    | [] => []
    | c :: cs =>
      ((c :: cs).takeWhile (fun d => !pyIsSpace d),
        ((c :: cs).dropWhile (fun d => !pyIsSpace d)).takeWhile pyIsSpace) ::
      wordsPairsAux fuel
        (((c :: cs).dropWhile (fun d => !pyIsSpace d)).dropWhile pyIsSpace)

/-- `re.findall(r'(\S+)(\s*)', l)`. -/
def wordsPairs (l : List Char) : List (List Char × List Char) :=
  wordsPairsAux l.length l

/-- The inner `for word, space in words` loop of `_process_text_node`:
each word is tagged with the running character offset (`data-word`),
which then advances by `len(word) + len(space)`.  Returns the tagged
words and the final offset. -/
def annotateWords (l : List Char) (off : Nat) : List (List Char × Nat) × Nat :=
  (wordsPairs l).foldl
    (fun st p => (st.1 ++ [(p.1, st.2)], st.2 + p.1.length + p.2.length))
    ([], off)

/-- Matches of `([^.!?]*[.!?]+\s*)`: content up to and including a
terminator run, plus the run's trailing whitespace. -/
def nodeSegsAux : Nat → List Char → List (List Char)
  | 0, _ => []
  | fuel + 1, l =>
    match l.dropWhile (fun c => !isTerm c) with
    | [] => []
    | r :: rs =>
      (l.takeWhile (fun c => !isTerm c) ++ (r :: rs).takeWhile isTerm ++
          ((r :: rs).dropWhile isTerm).takeWhile pyIsSpace) ::
      nodeSegsAux fuel (((r :: rs).dropWhile isTerm).dropWhile pyIsSpace)

/-- `sentence_pattern.findall(text)` of `_process_text_node`. -/
def nodeSegs (l : List Char) : List (List Char) :=
  nodeSegsAux l.length l

/-- `sentence_pattern.sub('', text)`: the unterminated remainder after
the last match. -/
def nodeRestAux : Nat → List Char → List Char
  | 0, l => l
  | fuel + 1, l =>
    match l.dropWhile (fun c => !isTerm c) with
    | [] => l
    | r :: rs => nodeRestAux fuel (((r :: rs).dropWhile isTerm).dropWhile pyIsSpace)

/-- The remainder of a text node left by `sentence_pattern.sub('', text)`. -/
def nodeRest (l : List Char) : List Char :=
  nodeRestAux l.length l

/-- `MarkdownRenderer._process_text_node`: annotate one text node.
Returns the produced annotations — for each retained sentence its
`data-sentence` index and its words with their `data-word` offsets —
together with the updated sentence index and character offset. -/
def process_text_node (text : List Char) (sentence_index word_offset : Nat) :
    List (Nat × List (List Char × Nat)) × Nat × Nat :=
  if pyStrip text = [] then ([], sentence_index, word_offset)
  else
    let segs2 :=
      if pyStrip (nodeRest text) = [] then nodeSegs text
      else nodeSegs text ++ [nodeRest text]
    let segs3 := if segs2.isEmpty then [text] else segs2
    segs3.foldl
      (fun st s =>
        if pyStrip s = [] then st
        else
          (st.1 ++ [(st.2.1, (annotateWords s st.2.2).1)], st.2.1 + 1,
            (annotateWords s st.2.2).2))
      ([], sentence_index, word_offset)

/-! ## Specification-side definitions

These follow the spec's words, not the code, and are used to state the
claims independently of the embedded implementation. -/

/-- Spec §4.2: "split the prefix substring on whitespace and count
non-empty tokens", stated through Mathlib's `List.splitOnP`. -/
def specTokenCount (l : List Char) : Nat :=
  ((l.splitOnP pyIsSpace).filter (fun w => !w.isEmpty)).length

/-- Spec §8 / §4.1: the segments of a text delimited at sentence
boundaries (the glossary's "position immediately after a maximal run of
`.`/`!`/`?`"): each segment runs up to and including a terminator run,
and the trailing unterminated remainder forms the last segment. -/
def specSegsAux : Nat → List Char → List (List Char)
  | 0, _ => []
  | fuel + 1, l =>
    match l.dropWhile (fun c => !isTerm c) with
    | [] => [l]
    | r :: rs =>
      (l.takeWhile (fun c => !isTerm c) ++ (r :: rs).takeWhile isTerm) ::
        specSegsAux fuel ((r :: rs).dropWhile isTerm)

/-- The boundary-delimited segments of `l`. -/
def specSegs (l : List Char) : List (List Char) :=
  specSegsAux (l.length + 1) l

/-- Spec §8: the number of segments whose trimmed text is non-empty. -/
def specSentenceCount (l : List Char) : Nat :=
  ((specSegs l).filter (fun seg => !(pyStrip seg).isEmpty)).length

/-- The invariant every retained sentence satisfies (claim C10): offsets
in bounds, a non-empty span, and at least one non-whitespace character
in the stored text. -/
def SentOK (t : List Char) (s : Sentence) : Prop :=
  s.start < s.stop ∧ s.stop ≤ t.length ∧ s.text ≠ [] ∧
    ∃ c ∈ s.text, pyIsSpace c = false

/-- Proof helper: the half-open slices of `t` cut at the positions
`cs :: es`, the final slice running to the end of `t`. -/
def sliceList (t : List Char) : Nat → List Nat → List (List Char)
  | cs, [] => [t.drop cs]
  | cs, e :: es => ((t.drop cs).take (e - cs)) :: sliceList t e es

end MarkdownTTS

namespace MarkdownTTS

/-! ## Helper lemmas -/

lemma length_takeWhile_lt_of_take (p : Char → Bool) :
    ∀ (l : List Char) (n : Nat), (l.take n).dropWhile p ≠ [] →
      (l.takeWhile p).length < n := by
  intro l
  induction l with
  | nil => intro n h; simp at h
  | cons c cs ih =>
    intro n h
    cases n with
    | zero => simp at h
    | succ m =>
      rw [List.take_succ_cons, List.dropWhile_cons] at h
      by_cases hp : p c = true
      · rw [if_pos hp] at h
        have := ih m h
        rw [List.takeWhile_cons, if_pos hp]
        simpa using this
      · rw [List.takeWhile_cons, if_neg hp]
        exact Nat.succ_pos m

lemma length_takeWhile_lt (p : Char → Bool) (l : List Char)
    (h : l.dropWhile p ≠ []) : (l.takeWhile p).length < l.length := by
  have hlen := congrArg List.length (List.takeWhile_append_dropWhile (p := p) (l := l))
  rw [List.length_append] at hlen
  have : 0 < (l.dropWhile p).length := List.length_pos.mpr h
  omega

lemma dropWhile_ne_nil_of_pyStrip (l : List Char) (h : pyStrip l ≠ []) :
    l.dropWhile pyIsSpace ≠ [] := by
  intro hc
  apply h
  simp [pyStrip, hc]

lemma head_dropWhile_false (p : Char → Bool) :
    ∀ (l : List Char) (c : Char) (cs : List Char),
      l.dropWhile p = c :: cs → p c = false := by
  intro l
  induction l with
  | nil => intro c cs h; simp at h
  | cons d ds ih =>
    intro c cs h
    rw [List.dropWhile_cons] at h
    by_cases hp : p d = true
    · rw [if_pos hp] at h; exact ih c cs h
    · rw [if_neg hp] at h
      cases h
      simpa using hp

lemma exists_not_space_of_pyStrip (l : List Char) (h : pyStrip l ≠ []) :
    ∃ c ∈ pyStrip l, pyIsSpace c = false := by
  unfold pyStrip at h ⊢
  rcases hd : (l.dropWhile pyIsSpace).reverse.dropWhile pyIsSpace with _ | ⟨c, cs⟩
  · rw [hd] at h; simp at h
  · refine ⟨c, ?_, head_dropWhile_false pyIsSpace _ c cs hd⟩
    exact List.mem_reverse.mpr (List.mem_cons_self c cs)

lemma actualStart_ge (t : List Char) (cs : Nat) : cs ≤ actualStart t cs :=
  Nat.le_add_right cs _

lemma actualStart_lt (t : List Char) (cs e : Nat) (hcs : cs ≤ e)
    (h : pyStrip ((t.drop cs).take (e - cs)) ≠ []) : actualStart t cs < e := by
  have h1 := dropWhile_ne_nil_of_pyStrip _ h
  have h2 := length_takeWhile_lt_of_take pyIsSpace (t.drop cs) (e - cs) h1
  unfold actualStart
  omega

lemma actualStart_lt_length (t : List Char) (cs : Nat) (hcs : cs ≤ t.length)
    (h : pyStrip (t.drop cs) ≠ []) : actualStart t cs < t.length := by
  have h1 := dropWhile_ne_nil_of_pyStrip _ h
  have h2 := length_takeWhile_lt pyIsSpace (t.drop cs) h1
  rw [List.length_drop] at h2
  unfold actualStart
  omega

lemma matchEndsAux_bounds :
    ∀ (l : List Char) (i : Nat) (prev : Bool),
      ∀ e ∈ matchEndsAux l i prev, i ≤ e ∧ e ≤ i + l.length := by
  intro l
  induction l with
  | nil =>
    intro i prev e he
    unfold matchEndsAux at he
    rcases prev with _ | _ <;> simp_all
  | cons c cs ih =>
    intro i prev e he
    unfold matchEndsAux at he
    by_cases hc : isTerm c = true
    · rw [if_pos hc] at he
      have := ih (i + 1) true e he
      simp only [List.length_cons]
      omega
    · rw [if_neg hc, List.mem_append] at he
      rcases he with he | he
      · rcases prev with _ | _ <;> simp_all
      · have := ih (i + 1) false e he
        simp only [List.length_cons]
        omega

lemma matchEndsAux_chain :
    ∀ (l : List Char) (i j : Nat) (prev : Bool), j ≤ i →
      List.Chain (· ≤ ·) j (matchEndsAux l i prev) := by
  intro l
  induction l with
  | nil =>
    intro i j prev hj
    unfold matchEndsAux
    by_cases hp : prev = true
    · rw [if_pos hp]
      exact List.Chain.cons hj List.Chain.nil
    · rw [if_neg hp]
      exact List.Chain.nil
  | cons c cs ih =>
    intro i j prev hj
    unfold matchEndsAux
    by_cases hc : isTerm c = true
    · rw [if_pos hc]
      exact ih (i + 1) j true (by omega)
    · rw [if_neg hc]
      by_cases hp : prev = true
      · rw [if_pos hp, List.singleton_append, List.chain_cons]
        exact ⟨hj, ih (i + 1) i false (by omega)⟩
      · rw [if_neg hp, List.nil_append]
        exact ih (i + 1) j false (by omega)

lemma index_snoc (acc : List Sentence) (x : Sentence)
    (hx : x.index = acc.length)
    (h : ∀ k s, acc.get? k = some s → s.index = k) :
    ∀ k s, (acc ++ [x]).get? k = some s → s.index = k := by
  intro k s hk
  rcases lt_trichotomy k acc.length with hlt | heq | hgt
  · rw [List.get?_append hlt] at hk
    exact h k s hk
  · subst heq
    rw [List.get?_concat_length] at hk
    cases hk
    exact hx
  · have hlen : (acc ++ [x]).length ≤ k := by
      rw [List.length_append]
      simpa using hgt
    rw [List.get?_eq_none.mpr hlen] at hk
    cases hk

lemma chain'_snoc (acc : List Sentence) (x : Sentence)
    (h : List.Chain' (fun a b => a.stop ≤ b.start) acc)
    (hlast : ∀ a ∈ acc, a.stop ≤ x.start) :
    List.Chain' (fun a b => a.stop ≤ b.start) (acc ++ [x]) := by
  rw [List.chain'_append]
  refine ⟨h, List.chain'_singleton x, ?_⟩
  intro a ha b hb
  simp only [List.head?_cons, Option.mem_def, Option.some.injEq] at hb
  subst hb
  exact hlast a (List.mem_of_mem_getLast? ha)

/-- Master invariant of the `_split_sentences` loop: starting from a
consistent accumulator and a sorted, in-bounds list of match ends, the
result consists of well-formed, ordered sentences indexed by position. -/
lemma segAux_master (t : List Char) :
    ∀ (es : List Nat) (cs : Nat) (acc : List Sentence),
      cs ≤ t.length →
      List.Chain (· ≤ ·) cs es →
      (∀ e ∈ es, e ≤ t.length) →
      (∀ a ∈ acc, a.stop ≤ cs) →
      (∀ a ∈ acc, SentOK t a) →
      List.Chain' (fun a b => a.stop ≤ b.start) acc →
      (∀ k s, acc.get? k = some s → s.index = k) →
      (∀ a ∈ segAux t es cs acc, SentOK t a) ∧
        List.Chain' (fun a b => a.stop ≤ b.start) (segAux t es cs acc) ∧
        (∀ k s, (segAux t es cs acc).get? k = some s → s.index = k) := by
  intro es
  induction es with
  | nil =>
    intro cs acc h1 h2 h3 h4 h5 h6 h7
    unfold segAux
    by_cases hrem : pyStrip (t.drop cs) = []
    · rw [if_pos hrem]
      exact ⟨h5, h6, h7⟩
    · rw [if_neg hrem]
      have hok : SentOK t ⟨pyStrip (t.drop cs), actualStart t cs, t.length, acc.length⟩ := by
        refine ⟨actualStart_lt_length t cs h1 hrem, le_refl _, hrem, ?_⟩
        exact exists_not_space_of_pyStrip _ hrem
      refine ⟨?_, ?_, ?_⟩
      · intro a ha
        rcases List.mem_append.mp ha with ha | ha
        · exact h5 a ha
        · rw [List.mem_singleton] at ha
          exact ha ▸ hok
      · refine chain'_snoc acc _ h6 ?_
        intro a ha
        exact le_trans (h4 a ha) (actualStart_ge t cs)
      · exact index_snoc acc _ rfl h7
  | cons e es ih =>
    intro cs acc h1 h2 h3 h4 h5 h6 h7
    rw [List.chain_cons] at h2
    obtain ⟨hcse, hchain⟩ := h2
    have he_len : e ≤ t.length := h3 e (List.mem_cons_self e es)
    have h3' : ∀ x ∈ es, x ≤ t.length := fun x hx => h3 x (List.mem_cons_of_mem e hx)
    unfold segAux
    by_cases hst : pyStrip ((t.drop cs).take (e - cs)) = []
    · rw [if_pos hst]
      exact ih e acc he_len hchain h3'
        (fun a ha => le_trans (h4 a ha) hcse) h5 h6 h7
    · rw [if_neg hst]
      have hok : SentOK t ⟨pyStrip ((t.drop cs).take (e - cs)), actualStart t cs, e, acc.length⟩ := by
        refine ⟨actualStart_lt t cs e hcse hst, he_len, hst, ?_⟩
        exact exists_not_space_of_pyStrip _ hst
      apply ih e _ he_len hchain h3'
      · intro a ha
        rcases List.mem_append.mp ha with ha | ha
        · exact le_trans (h4 a ha) hcse
        · rw [List.mem_singleton] at ha
          subst ha
          exact le_refl e
      · intro a ha
        rcases List.mem_append.mp ha with ha | ha
        · exact h5 a ha
        · rw [List.mem_singleton] at ha
          exact ha ▸ hok
      · refine chain'_snoc acc _ h6 ?_
        intro a ha
        exact le_trans (h4 a ha) (actualStart_ge t cs)
      · exact index_snoc acc _ rfl h7

/-- Every sentence produced by `_split_sentences` is well-formed. -/
lemma split_sentences_ok (t : List Char) :
    ∀ s ∈ split_sentences t, SentOK t s := by
  unfold split_sentences
  by_cases ht : t.isEmpty
  · rw [if_pos ht]; intro s hs; cases hs
  · rw [if_neg ht]
    exact (segAux_master t (matchEnds t) 0 [] (Nat.zero_le _)
      (matchEndsAux_chain t 0 0 false (le_refl 0))
      (fun e he => by have := (matchEndsAux_bounds t 0 false e he).2; omega)
      (by intro a ha; cases ha) (by intro a ha; cases ha)
      List.chain'_nil (by intro k s hk; cases hk)).1

/-- Sentence spans produced by `_split_sentences` are ordered. -/
lemma split_sentences_chain (t : List Char) :
    List.Chain' (fun a b => a.stop ≤ b.start) (split_sentences t) := by
  unfold split_sentences
  by_cases ht : t.isEmpty
  · rw [if_pos ht]; exact List.chain'_nil
  · rw [if_neg ht]
    exact (segAux_master t (matchEnds t) 0 [] (Nat.zero_le _)
      (matchEndsAux_chain t 0 0 false (le_refl 0))
      (fun e he => by have := (matchEndsAux_bounds t 0 false e he).2; omega)
      (by intro a ha; cases ha) (by intro a ha; cases ha)
      List.chain'_nil (by intro k s hk; cases hk)).2.1

/-- The `index` field of the `k`-th produced sentence is `k`. -/
lemma split_sentences_index (t : List Char) :
    ∀ k s, (split_sentences t).get? k = some s → s.index = k := by
  unfold split_sentences
  by_cases ht : t.isEmpty
  · rw [if_pos ht]; intro k s hk; cases hk
  · rw [if_neg ht]
    exact (segAux_master t (matchEnds t) 0 [] (Nat.zero_le _)
      (matchEndsAux_chain t 0 0 false (le_refl 0))
      (fun e he => by have := (matchEndsAux_bounds t 0 false e he).2; omega)
      (by intro a ha; cases ha) (by intro a ha; cases ha)
      List.chain'_nil (by intro k s hk; cases hk)).2.2

/-! ## Word counting agrees with "split on whitespace, count tokens" -/

lemma specTokenCount_cons_not_space (c : Char) (hc : pyIsSpace c = false) :
    ∀ l : List Char,
      specTokenCount (c :: l) =
        1 + specTokenCount (l.dropWhile (fun d => !pyIsSpace d)) := by
  intro l
  induction l generalizing c with
  | nil =>
    simp [specTokenCount, List.splitOnP_cons, List.splitOnP_nil, hc, List.filter]
  | cons d ds ih =>
    by_cases hd : pyIsSpace d = true
    · rw [List.dropWhile_cons, if_neg (by simp [hd])]
      unfold specTokenCount
      rw [List.splitOnP_cons, if_neg (by simp [hc]), List.splitOnP_cons, if_pos hd]
      simp only [List.modifyHead, List.filter_cons]
      simp [List.filter]
      omega
    · have hstep : specTokenCount (c :: d :: ds) = specTokenCount (d :: ds) := by
        unfold specTokenCount
        rw [List.splitOnP_cons, if_neg (by simp [hc]),
          List.splitOnP_cons, if_neg (by simp [hd])]
        rcases hsp : ds.splitOnP pyIsSpace with _ | ⟨h0, tl⟩
        · exact absurd hsp (List.splitOnP_ne_nil pyIsSpace ds)
        · simp [List.modifyHead, List.filter_cons]
      rw [hstep, ih d (by simpa using hd)]
      rw [List.dropWhile_cons, if_pos (by simp [hd])]

lemma pySplitCountAux_spec (l : List Char) :
    pySplitCountAux l false = specTokenCount l ∧
      pySplitCountAux l true =
        specTokenCount (l.dropWhile (fun d => !pyIsSpace d)) := by
  induction l with
  | nil =>
    constructor <;>
      simp [pySplitCountAux, specTokenCount, List.splitOnP_nil, List.filter]
  | cons c cs ih =>
    obtain ⟨ihA, ihB⟩ := ih
    have hspace : ∀ b : Bool, pyIsSpace c = true →
        pySplitCountAux (c :: cs) b = pySplitCountAux cs false := by
      intro b hc
      simp [pySplitCountAux, hc]
    have hcount_space : pyIsSpace c = true →
        specTokenCount (c :: cs) = specTokenCount cs := by
      intro hc
      unfold specTokenCount
      rw [List.splitOnP_cons, if_pos hc]
      simp [List.filter_cons]
    constructor
    · by_cases hc : pyIsSpace c = true
      · rw [hspace false hc, ihA, hcount_space hc]
      · have : pySplitCountAux (c :: cs) false = 1 + pySplitCountAux cs true := by
          simp [pySplitCountAux, hc]
        rw [this, ihB,
          specTokenCount_cons_not_space c (by simpa using hc) cs]
    · by_cases hc : pyIsSpace c = true
      · rw [hspace true hc, ihA, List.dropWhile_cons, if_neg (by simp [hc]),
          hcount_space hc]
      · have : pySplitCountAux (c :: cs) true = pySplitCountAux cs true := by
          simp [pySplitCountAux, hc]
        rw [this, ihB, List.dropWhile_cons, if_pos (by simp [hc])]

/-- The code's word counter equals the spec's "split the prefix on
whitespace and count non-empty tokens". -/
lemma pySplitCount_eq_specTokenCount (l : List Char) :
    pySplitCount l = specTokenCount l :=
  (pySplitCountAux_spec l).1

/-! ## The sentence count agrees with the boundary-delimited segments -/

lemma matchEndsAux_append_noTerm :
    ∀ (pre : List Char), (∀ c ∈ pre, isTerm c = false) →
      ∀ (l : List Char) (i : Nat),
        matchEndsAux (pre ++ l) i false = matchEndsAux l (i + pre.length) false := by
  intro pre
  induction pre with
  | nil => intro _ l i; simp
  | cons c cs ih =>
    intro hall l i
    have hc : isTerm c = false := hall c (List.mem_cons_self c cs)
    rw [List.cons_append]
    rw [show matchEndsAux (c :: (cs ++ l)) i false =
        matchEndsAux (cs ++ l) (i + 1) false from by simp [matchEndsAux, hc]]
    rw [ih (fun d hd => hall d (List.mem_cons_of_mem c hd)) l (i + 1)]
    rw [show i + 1 + cs.length = i + (c :: cs).length from by
      simp only [List.length_cons]; omega]

lemma matchEndsAux_append_run_true :
    ∀ (run : List Char), (∀ c ∈ run, isTerm c = true) →
      ∀ (l : List Char) (i : Nat),
        (l = [] ∨ ∃ d ds, l = d :: ds ∧ isTerm d = false) →
        matchEndsAux (run ++ l) i true =
          (i + run.length) :: matchEndsAux l (i + run.length) false := by
  intro run
  induction run with
  | nil =>
    intro _ l i hl
    rcases hl with rfl | ⟨d, ds, rfl, hd⟩
    · simp [matchEndsAux]
    · simp [matchEndsAux, hd]
  | cons r rs ih =>
    intro hall l i hl
    have hr : isTerm r = true := hall r (List.mem_cons_self r rs)
    rw [List.cons_append]
    rw [show matchEndsAux (r :: (rs ++ l)) i true =
        matchEndsAux (rs ++ l) (i + 1) true from by simp [matchEndsAux, hr]]
    rw [ih (fun d hd => hall d (List.mem_cons_of_mem r hd)) l (i + 1) hl]
    rw [show i + 1 + rs.length = i + (r :: rs).length from by
      simp only [List.length_cons]; omega]

lemma matchEndsAux_append_run_false
    (run : List Char) (hne : run ≠ []) (hall : ∀ c ∈ run, isTerm c = true)
    (l : List Char) (i : Nat)
    (hl : l = [] ∨ ∃ d ds, l = d :: ds ∧ isTerm d = false) :
    matchEndsAux (run ++ l) i false =
      (i + run.length) :: matchEndsAux l (i + run.length) false := by
  rcases run with _ | ⟨r, rs⟩
  · exact absurd rfl hne
  · have hr : isTerm r = true := hall r (List.mem_cons_self r rs)
    rw [List.cons_append]
    rw [show matchEndsAux (r :: (rs ++ l)) i false =
        matchEndsAux (rs ++ l) (i + 1) true from by simp [matchEndsAux, hr]]
    rw [matchEndsAux_append_run_true rs
      (fun d hd => hall d (List.mem_cons_of_mem r hd)) l (i + 1) hl]
    rw [show i + 1 + rs.length = i + (r :: rs).length from by
      simp only [List.length_cons]; omega]

lemma takeWhile_all_of_dropWhile_nil (p : Char → Bool) (l : List Char)
    (h : l.dropWhile p = []) : l.takeWhile p = l := by
  have := List.takeWhile_append_dropWhile (p := p) (l := l)
  rw [h, List.append_nil] at this
  exact this

/-- One step of the `finditer` decomposition: if the text still contains
a terminator, the first match ends right after the first terminator run,
and the remaining matches are those of the tail. -/
lemma matchEndsAux_decomp (l : List Char) (r : Char) (rs : List Char)
    (hdrop : l.dropWhile (fun c => !isTerm c) = r :: rs) (i : Nat) :
    matchEndsAux l i false =
      (i + (l.takeWhile (fun c => !isTerm c)).length +
          ((r :: rs).takeWhile isTerm).length) ::
        matchEndsAux ((r :: rs).dropWhile isTerm)
          (i + (l.takeWhile (fun c => !isTerm c)).length +
            ((r :: rs).takeWhile isTerm).length) false := by
  have hsplit : l = l.takeWhile (fun c => !isTerm c) ++ (r :: rs) := by
    conv_lhs => rw [← List.takeWhile_append_dropWhile
      (p := fun c => !isTerm c) (l := l)]
    rw [hdrop]
  have hpre : ∀ c ∈ l.takeWhile (fun c => !isTerm c), isTerm c = false := by
    intro c hc
    have := List.mem_takeWhile_imp hc
    simpa using this
  have hrun : ∀ c ∈ (r :: rs).takeWhile isTerm, isTerm c = true :=
    fun c hc => List.mem_takeWhile_imp hc
  have hrunne : (r :: rs).takeWhile isTerm ≠ [] := by
    have hr : isTerm r = true := by
      have := head_dropWhile_false (fun c => !isTerm c) l r rs hdrop
      simpa using this
    rw [List.takeWhile_cons_of_pos hr]
    simp
  have hrest : (r :: rs).dropWhile isTerm = [] ∨
      ∃ d ds, (r :: rs).dropWhile isTerm = d :: ds ∧ isTerm d = false := by
    rcases hd : (r :: rs).dropWhile isTerm with _ | ⟨d, ds⟩
    · exact Or.inl rfl
    · exact Or.inr ⟨d, ds, rfl, head_dropWhile_false isTerm (r :: rs) d ds hd⟩
  conv_lhs => rw [hsplit]
  rw [matchEndsAux_append_noTerm _ hpre (r :: rs) i]
  conv_lhs =>
    rw [show (r :: rs) = (r :: rs).takeWhile isTerm ++ (r :: rs).dropWhile isTerm from
      (List.takeWhile_append_dropWhile (p := isTerm) (l := r :: rs)).symm]
  rw [matchEndsAux_append_run_false _ hrunne hrun _ _ hrest]

/-- The number of sentences `segAux` retains is the number of cut slices
whose trimmed text is non-empty. -/
lemma segAux_length (t : List Char) :
    ∀ (es : List Nat) (cs : Nat) (acc : List Sentence),
      (segAux t es cs acc).length =
        acc.length +
          ((sliceList t cs es).filter (fun seg => !(pyStrip seg).isEmpty)).length := by
  intro es
  induction es with
  | nil =>
    intro cs acc
    unfold segAux sliceList
    by_cases hrem : pyStrip (t.drop cs) = []
    · rw [if_pos hrem]
      simp [List.filter_cons, hrem]
    · rw [if_neg hrem]
      simp [List.filter_cons, List.isEmpty_iff, hrem]
  | cons e es ih =>
    intro cs acc
    unfold segAux sliceList
    by_cases hst : pyStrip ((t.drop cs).take (e - cs)) = []
    · rw [if_pos hst, ih e acc]
      simp [List.filter_cons, hst]
    · rw [if_neg hst, ih e _]
      simp only [List.length_append, List.length_singleton,
        List.filter_cons, List.isEmpty_iff]
      rw [if_pos (by simp [List.isEmpty_iff, hst])]
      simp only [List.length_cons]
      omega

lemma specSegsAux_succ (fuel : Nat) (l : List Char) :
    specSegsAux (fuel + 1) l =
      match l.dropWhile (fun c => !isTerm c) with
      | [] => [l]
      | r :: rs =>
        (l.takeWhile (fun c => !isTerm c) ++ (r :: rs).takeWhile isTerm) ::
          specSegsAux fuel ((r :: rs).dropWhile isTerm) := rfl

lemma drop_cs_take (t : List Char) (cs n1 n2 : Nat) (A B : List Char)
    (h : t.drop cs = A ++ B) (hn : A.length = n1 + n2) :
    (t.drop cs).take (cs + n1 + n2 - cs) = A ∧ t.drop (cs + n1 + n2) = B := by
  constructor
  · rw [show cs + n1 + n2 - cs = A.length from by omega, h]
    exact List.take_left A B
  · rw [show cs + n1 + n2 = cs + A.length from by omega]
    rw [(List.drop_drop A.length cs t).symm, h]
    exact List.drop_left A B

/-- The `finditer` cut slices of the whole text are exactly the
boundary-delimited segments of the specification. -/
lemma sliceList_eq_specSegsAux :
    ∀ (fuel : Nat) (t : List Char) (cs : Nat),
      (t.drop cs).length < fuel →
        sliceList t cs (matchEndsAux (t.drop cs) cs false) =
          specSegsAux fuel (t.drop cs) := by
  intro fuel
  induction fuel with
  | zero => intro t cs h; omega
  | succ fuel ih =>
    intro t cs h
    rcases hdrop : (t.drop cs).dropWhile (fun c => !isTerm c) with _ | ⟨r, rs⟩
    · have hall : (t.drop cs).takeWhile (fun c => !isTerm c) = t.drop cs :=
        takeWhile_all_of_dropWhile_nil _ _ hdrop
      have hme : matchEndsAux (t.drop cs) cs false = [] := by
        have hpre : ∀ c ∈ (t.drop cs).takeWhile (fun c => !isTerm c), isTerm c = false := by
          intro c hc
          have := List.mem_takeWhile_imp hc
          simpa using this
        rw [← List.append_nil (t.drop cs)]
        conv_lhs => rw [← hall]
        rw [matchEndsAux_append_noTerm _ hpre [] cs]
        rfl
      rw [hme, specSegsAux_succ, hdrop]
      rfl
    · have hr : isTerm r = true := by
        have := head_dropWhile_false (fun c => !isTerm c) (t.drop cs) r rs hdrop
        simpa using this
      have hsplit0 : t.drop cs =
          (t.drop cs).takeWhile (fun c => !isTerm c) ++ (r :: rs) := by
        conv_lhs => rw [← List.takeWhile_append_dropWhile
          (p := fun c => !isTerm c) (l := t.drop cs), hdrop]
      have hRD : r :: rs =
          (r :: rs).takeWhile isTerm ++ (r :: rs).dropWhile isTerm :=
        (List.takeWhile_append_dropWhile (p := isTerm) (l := r :: rs)).symm
      have hsplit : t.drop cs =
          ((t.drop cs).takeWhile (fun c => !isTerm c) ++
            (r :: rs).takeWhile isTerm) ++ (r :: rs).dropWhile isTerm := by
        conv_lhs => rw [hsplit0]
        rw [List.append_assoc, ← hRD]
      obtain ⟨htake, hdropstep⟩ := drop_cs_take t cs
        ((t.drop cs).takeWhile (fun c => !isTerm c)).length
        ((r :: rs).takeWhile isTerm).length
        ((t.drop cs).takeWhile (fun c => !isTerm c) ++ (r :: rs).takeWhile isTerm)
        ((r :: rs).dropWhile isTerm) hsplit (List.length_append _ _)
      rw [matchEndsAux_decomp (t.drop cs) r rs hdrop cs]
      have hspec : specSegsAux (fuel + 1) (t.drop cs) =
          ((t.drop cs).takeWhile (fun c => !isTerm c) ++
            (r :: rs).takeWhile isTerm) ::
            specSegsAux fuel ((r :: rs).dropWhile isTerm) := by
        rw [specSegsAux_succ, hdrop]
      rw [hspec]
      simp only [sliceList]
      rw [htake]
      congr 1
      have hrunlen : 0 < ((r :: rs).takeWhile isTerm).length := by
        rw [List.takeWhile_cons_of_pos hr]
        simp
      have hfuel : (t.drop
          (cs + ((t.drop cs).takeWhile (fun c => !isTerm c)).length +
            ((r :: rs).takeWhile isTerm).length)).length < fuel := by
        rw [hdropstep]
        have hlen := congrArg List.length hsplit
        simp only [List.length_append] at hlen
        omega
      have := ih t
        (cs + ((t.drop cs).takeWhile (fun c => !isTerm c)).length +
          ((r :: rs).takeWhile isTerm).length) hfuel
      rw [hdropstep] at this
      exact this

/-- The number of sentences the segmenter retains equals the number of
boundary-delimited segments with non-empty trimmed text. -/
lemma split_sentences_length (t : List Char) :
    (split_sentences t).length = specSentenceCount t := by
  by_cases ht : t.isEmpty
  · have ht' : t = [] := List.isEmpty_iff.mp ht
    subst ht'
    decide
  · rw [split_sentences, if_neg ht, segAux_length t (matchEnds t) 0 []]
    simp only [List.length_nil, Nat.zero_add]
    have h0 : t.drop 0 = t := List.drop_zero t
    have hcorr := sliceList_eq_specSegsAux (t.length + 1) t 0 (by rw [h0]; omega)
    rw [h0] at hcorr
    rw [show matchEnds t = matchEndsAux t 0 false from rfl, hcorr]
    rfl

/-- Whitespace-only (or empty) input yields no sentences. -/
lemma split_sentences_all_space (t : List Char)
    (h : ∀ c ∈ t, pyIsSpace c = true) : split_sentences t = [] := by
  by_cases ht : t.isEmpty
  · rw [split_sentences, if_pos ht]
  · rw [split_sentences, if_neg ht]
    have hter : ∀ c ∈ t, isTerm c = false := by
      intro c hc
      have hs := h c hc
      unfold pyIsSpace at hs
      rcases (by simpa using hs :
          ((((c = ' ' ∨ c = '\t') ∨ c = '\n') ∨ c = '\r') ∨
            c = Char.ofNat 11) ∨ c = Char.ofNat 12) with
        ((((h1 | h1) | h1) | h1) | h1) | h1 <;> subst h1 <;> decide
    have hme : matchEnds t = [] := by
      unfold matchEnds
      have hstep := matchEndsAux_append_noTerm t hter [] 0
      rw [List.append_nil] at hstep
      rw [hstep]
      rfl
    rw [hme]
    have hdw : t.dropWhile pyIsSpace = [] := List.dropWhile_eq_nil_iff.mpr h
    have hstrip : pyStrip (t.drop 0) = [] := by
      rw [List.drop_zero]
      simp [pyStrip, hdw]
    unfold segAux
    rw [if_pos hstrip]

/-- `List.find?` returns the element at the first position satisfying
the predicate. -/
lemma find?_eq_some_of_first {α : Type} (p : α → Bool) :
    ∀ (l : List α) (j : Nat) (a : α), l.get? j = some a → p a = true →
      (∀ k b, k < j → l.get? k = some b → p b = false) →
      l.find? p = some a := by
  intro l
  induction l with
  | nil => intro j a hj; cases hj
  | cons x xs ih =>
    intro j a hj hp hmin
    cases j with
    | zero =>
      rw [List.get?_cons_zero] at hj
      cases hj
      exact List.find?_cons_of_pos xs hp
    | succ k =>
      have hx : p x = false :=
        hmin 0 x (Nat.succ_pos k) List.get?_cons_zero
      rw [List.find?_cons_of_neg xs (by simp [hx])]
      refine ih k a (by simpa using hj) hp ?_
      intro m b hm hb
      exact hmin (m + 1) b (by omega) (by simpa using hb)

/-- `List.find?` fails when no position satisfies the predicate. -/
lemma find?_eq_none_of_all {α : Type} (p : α → Bool) (l : List α)
    (h : ∀ j a, l.get? j = some a → p a = false) : l.find? p = none := by
  rw [List.find?_eq_none]
  intro x hx
  obtain ⟨n, hn⟩ := List.mem_iff_get?.mp hx
  simp [h n x hn]

lemma containsPred_false (x : Int) (b : Sentence)
    (h : ¬((b.start : Int) ≤ x ∧ x < (b.stop : Int))) :
    (decide ((b.start : Int) ≤ x) && decide (x < (b.stop : Int))) = false := by
  by_cases hA : (b.start : Int) ≤ x
  · by_cases hB : x < (b.stop : Int)
    · exact absurd ⟨hA, hB⟩ h
    · simp [hB]
  · simp [hA]

/-- `get_sentence_for_offset` when the offset lies in the span of the
first matching sentence. -/
lemma gsfo_first (t : List Char) (x : Int) (j : Nat) (s : Sentence)
    (hget : (mkTTSHighlighter t).sentences.get? j = some s)
    (hcon : (s.start : Int) ≤ x ∧ x < (s.stop : Int))
    (hmin : ∀ k s', k < j → (mkTTSHighlighter t).sentences.get? k = some s' →
      ¬((s'.start : Int) ≤ x ∧ x < (s'.stop : Int))) :
    get_sentence_for_offset (mkTTSHighlighter t) x = (j : Int) := by
  have hne : (mkTTSHighlighter t).sentences ≠ [] := by
    intro hnil
    rw [hnil] at hget
    cases hget
  have hfind : (mkTTSHighlighter t).sentences.find?
      (fun s => decide ((s.start : Int) ≤ x) && decide (x < (s.stop : Int))) =
      some s := by
    apply find?_eq_some_of_first _ _ j s hget
    · simp [hcon.1, hcon.2]
    · intro k b hk hb
      exact containsPred_false x b (hmin k b hk hb)
  unfold get_sentence_for_offset
  rw [if_neg (by simpa [List.isEmpty_iff] using hne), hfind]
  exact_mod_cast congrArg Int.ofNat (split_sentences_index t j s hget)

/-- `get_sentence_for_offset` in the end-of-text fallback case. -/
lemma gsfo_fallback (t : List Char) (x : Int)
    (hall : ∀ j s, (mkTTSHighlighter t).sentences.get? j = some s →
      ¬((s.start : Int) ≤ x ∧ x < (s.stop : Int)))
    (hlen : (t.length : Int) ≤ x)
    (hne : (mkTTSHighlighter t).sentences ≠ []) :
    get_sentence_for_offset (mkTTSHighlighter t) x =
      (((mkTTSHighlighter t).sentences.length - 1 : Nat) : Int) := by
  have hfind : (mkTTSHighlighter t).sentences.find?
      (fun s => decide ((s.start : Int) ≤ x) && decide (x < (s.stop : Int))) =
      none :=
    find?_eq_none_of_all _ _ (fun j a hj => containsPred_false x a (hall j a hj))
  have hlen0 : 0 < (mkTTSHighlighter t).sentences.length := List.length_pos.mpr hne
  have hlst : (mkTTSHighlighter t).sentences.getLast? =
      some ((mkTTSHighlighter t).sentences.get
        ⟨(mkTTSHighlighter t).sentences.length - 1, by omega⟩) := by
    rw [List.getLast?_eq_getElem?, List.getElem?_eq_getElem (by omega)]
    simp [List.get_eq_getElem]
  unfold get_sentence_for_offset
  rw [if_neg (by simpa [List.isEmpty_iff] using hne), hfind,
    show (mkTTSHighlighter t).text = t from rfl, if_pos hlen, hlst]
  have hidx := split_sentences_index t ((mkTTSHighlighter t).sentences.length - 1)
    ((mkTTSHighlighter t).sentences.get
      ⟨(mkTTSHighlighter t).sentences.length - 1, by omega⟩)
    (List.get?_eq_get (by
      have h0 : (split_sentences t).length = (mkTTSHighlighter t).sentences.length := rfl
      omega))
  exact_mod_cast congrArg Int.ofNat hidx

/-- `get_sentence_for_offset` in the not-found case. -/
lemma gsfo_notfound (t : List Char) (x : Int)
    (h : (mkTTSHighlighter t).sentences = [] ∨
      ((∀ j s, (mkTTSHighlighter t).sentences.get? j = some s →
        ¬((s.start : Int) ≤ x ∧ x < (s.stop : Int))) ∧ x < (t.length : Int))) :
    get_sentence_for_offset (mkTTSHighlighter t) x = -1 := by
  rcases h with hnil | ⟨hall, hxlt⟩
  · unfold get_sentence_for_offset
    rw [if_pos (by simp [List.isEmpty_iff, hnil])]
  · by_cases hnil2 : (mkTTSHighlighter t).sentences = []
    · unfold get_sentence_for_offset
      rw [if_pos (by simp [List.isEmpty_iff, hnil2])]
    · have hfind : (mkTTSHighlighter t).sentences.find?
          (fun s => decide ((s.start : Int) ≤ x) && decide (x < (s.stop : Int))) =
          none :=
        find?_eq_none_of_all _ _ (fun j a hj => containsPred_false x a (hall j a hj))
      unfold get_sentence_for_offset
      rw [if_neg (by simpa [List.isEmpty_iff] using hnil2), hfind,
        show (mkTTSHighlighter t).text = t from rfl, if_neg (by omega)]

/-! ## Claim theorems -/

/-- Claim C1 (evidence of the code bug): on the plain text node
`"Hello world"`, the annotator of `_process_text_node` assigns sentence
index 0 and tags the word `"world"` with `data-word = 6` (the running
character offset of its first character), while the tracker built from
the same text assigns the same sentence index 0 but computes cumulative
word offset `get_word_offset 6 11 = 1` for that word's start offset;
since `6 ≠ 1`, the identifier the controller passes to `highlight_word`
does not address the word being spoken. -/
theorem C1_word_identifier_divergence :
    (process_text_node ("Hello world".data) 0 0).1 =
      [(0, [("Hello".data, 0), ("world".data, 6)])] ∧
    split_sentences ("Hello world".data) =
      [⟨"Hello world".data, 0, 11, 0⟩] ∧
    get_word_offset (mkTTSHighlighter ("Hello world".data)) 6 11 = 1 ∧
    (6 : Nat) ≠ 1 := by
  refine ⟨by decide, by decide, by decide, by decide⟩

/-- Claim C2: `get_sentence_for_offset` returns the index of the first
sentence whose half-open span contains the offset; if none contains it
but the offset is at least the text length and sentences exist, the last
sentence's index; in every other case `-1`; in particular at offset
`len(text)` it returns the last index for any non-empty segmentation. -/
theorem C2_get_sentence_for_offset_spec (t : List Char) (x : Int) :
    (∀ j s, (mkTTSHighlighter t).sentences.get? j = some s →
        ((s.start : Int) ≤ x ∧ x < (s.stop : Int)) →
        (∀ k s', k < j → (mkTTSHighlighter t).sentences.get? k = some s' →
          ¬((s'.start : Int) ≤ x ∧ x < (s'.stop : Int))) →
        get_sentence_for_offset (mkTTSHighlighter t) x = (j : Int)) ∧
    ((∀ j s, (mkTTSHighlighter t).sentences.get? j = some s →
        ¬((s.start : Int) ≤ x ∧ x < (s.stop : Int))) →
      (t.length : Int) ≤ x → (mkTTSHighlighter t).sentences ≠ [] →
      get_sentence_for_offset (mkTTSHighlighter t) x =
        (((mkTTSHighlighter t).sentences.length - 1 : Nat) : Int)) ∧
    (((mkTTSHighlighter t).sentences = [] ∨
        ((∀ j s, (mkTTSHighlighter t).sentences.get? j = some s →
          ¬((s.start : Int) ≤ x ∧ x < (s.stop : Int))) ∧ x < (t.length : Int))) →
      get_sentence_for_offset (mkTTSHighlighter t) x = -1) ∧
    ((mkTTSHighlighter t).sentences ≠ [] →
      get_sentence_for_offset (mkTTSHighlighter t) (t.length : Int) =
        (((mkTTSHighlighter t).sentences.length - 1 : Nat) : Int)) := by
  refine ⟨fun j s hget hcon hmin => gsfo_first t x j s hget hcon hmin,
    fun hall hlen hne => gsfo_fallback t x hall hlen hne,
    fun h => gsfo_notfound t x h,
    fun hne => ?_⟩
  apply gsfo_fallback t (t.length : Int) ?_ (le_refl _) hne
  intro j s hj hcon
  have hok := split_sentences_ok t s (List.get?_mem hj)
  have hstop : (s.stop : Int) ≤ (t.length : Int) := by exact_mod_cast hok.2.1
  omega

/-- Witness for C2 on concrete trackers. -/
theorem C2_witness :
    get_sentence_for_offset (mkTTSHighlighter ("Hi. Yo.".data)) 0 = ((0 : Nat) : Int) ∧
    get_sentence_for_offset (mkTTSHighlighter ("Hi. Yo.".data)) 100 =
      (((mkTTSHighlighter ("Hi. Yo.".data)).sentences.length - 1 : Nat) : Int) ∧
    get_sentence_for_offset (mkTTSHighlighter []) 5 = -1 ∧
    get_sentence_for_offset (mkTTSHighlighter ("Hi. Yo.".data))
      (("Hi. Yo.".data).length : Int) =
      (((mkTTSHighlighter ("Hi. Yo.".data)).sentences.length - 1 : Nat) : Int) := by
  refine ⟨?_, ?_, ?_, ?_⟩
  · exact (C2_get_sentence_for_offset_spec ("Hi. Yo.".data) 0).1 0
      ⟨"Hi.".data, 0, 3, 0⟩ (by decide) (by decide)
      (fun k s' hk _ => absurd hk (by omega))
  · refine (C2_get_sentence_for_offset_spec ("Hi. Yo.".data) 100).2.1 ?_
      (by decide) (by decide)
    intro j s hj hcon
    rcases j with _ | _ | j
    · rw [show (mkTTSHighlighter ("Hi. Yo.".data)).sentences.get? 0 =
          some ⟨"Hi.".data, 0, 3, 0⟩ from by decide] at hj
      injection hj with hj'
      subst hj'
      exact absurd hcon (by decide)
    · rw [show (mkTTSHighlighter ("Hi. Yo.".data)).sentences.get? 1 =
          some ⟨"Yo.".data, 4, 7, 1⟩ from by decide] at hj
      injection hj with hj'
      subst hj'
      exact absurd hcon (by decide)
    · have hlen : (mkTTSHighlighter ("Hi. Yo.".data)).sentences.length = 2 := by
        decide
      rw [List.get?_eq_none.mpr (by omega)] at hj
      cases hj
  · exact (C2_get_sentence_for_offset_spec [] 5).2.2.1 (Or.inl (by decide))
  · exact (C2_get_sentence_for_offset_spec ("Hi. Yo.".data) 0).2.2.2 (by decide)

/-- Claim C3: `get_word_offset` returns 0 for non-positive starts and
otherwise the number of non-empty whitespace-delimited tokens of the
prefix before `start`, independently of the `end` argument; the
word-boundary event at offset 6 on `"Hello world test"` yields 1. -/
theorem C3_get_word_offset_spec :
    (∀ (t : List Char) (s e : Int), s ≤ 0 →
        get_word_offset (mkTTSHighlighter t) s e = 0) ∧
    (∀ (t : List Char) (s e : Int), 0 < s →
        get_word_offset (mkTTSHighlighter t) s e =
          specTokenCount (t.take s.toNat)) ∧
    (∀ (t : List Char) (s e e' : Int),
        get_word_offset (mkTTSHighlighter t) s e =
          get_word_offset (mkTTSHighlighter t) s e') ∧
    get_word_offset (mkTTSHighlighter ("Hello world test".data)) 6 11 = 1 := by
  refine ⟨?_, ?_, fun t s e e' => rfl, by decide⟩
  · intro t s e hs
    unfold get_word_offset
    rw [if_pos hs]
  · intro t s e hs
    unfold get_word_offset
    rw [if_neg (by omega)]
    exact pySplitCount_eq_specTokenCount _

/-- Witness for C3 on a concrete tracker. -/
theorem C3_witness :
    get_word_offset (mkTTSHighlighter ("ab cd".data)) (-3) 0 = 0 ∧
    get_word_offset (mkTTSHighlighter ("ab cd".data)) 4 9 =
      specTokenCount (("ab cd".data).take (4 : Int).toNat) := by
  exact ⟨C3_get_word_offset_spec.1 ("ab cd".data) (-3) 0 (by decide),
    C3_get_word_offset_spec.2.1 ("ab cd".data) 4 9 (by decide)⟩

/-- Claim C4: the sentence count equals the number of boundary-delimited
segments with non-empty trimmed text (a trailing unterminated remainder
counting as one more); a maximal punctuation run is a single boundary
(`"Wait... What?!"` yields 2 sentences); whitespace-only segments
consume no index; and empty or all-whitespace input yields no
sentences. -/
theorem C4_sentence_count_spec :
    (∀ t : List Char, t ≠ [] →
        sentence_count (mkTTSHighlighter t) = specSentenceCount t) ∧
    sentence_count (mkTTSHighlighter ("Wait... What?!".data)) = 2 ∧
    (∀ t : List Char, (∀ c ∈ t, pyIsSpace c = true) →
        (mkTTSHighlighter t).sentences = []) := by
  exact ⟨fun t _ => split_sentences_length t, by decide,
    fun t h => split_sentences_all_space t h⟩

/-- Witness for C4 on concrete texts. -/
theorem C4_witness :
    sentence_count (mkTTSHighlighter ("Hi.".data)) = specSentenceCount ("Hi.".data) ∧
    (mkTTSHighlighter ("  \t ".data)).sentences = [] := by
  exact ⟨C4_sentence_count_spec.1 ("Hi.".data) (by decide),
    C4_sentence_count_spec.2.2 ("  \t ".data) (by decide)⟩

/-- Claim C5, counterexample: on `"First sentence. Second sentence."`
sentence 0 is NOT `("First sentence.", start 0, end 16)` — the match of
`[.!?]+` after `"First sentence"` ends at position 15, not 16. -/
theorem C5_counterexample :
    ¬ ((split_sentences ("First sentence. Second sentence.".data)).get? 0 =
        some ⟨"First sentence.".data, 0, 16, 0⟩) := by
  decide

/-- Claim C5 as amended: two sentences; sentence 0 is
`("First sentence.", 0, 15)` (end 15, the position right after the
period), and sentence 1 is `"Second sentence."` with start 16, the
offset of the character `S` of `"Second"`. -/
theorem C5_amended_scenario :
    (split_sentences ("First sentence. Second sentence.".data)).length = 2 ∧
    (split_sentences ("First sentence. Second sentence.".data)).get? 0 =
      some ⟨"First sentence.".data, 0, 15, 0⟩ ∧
    (split_sentences ("First sentence. Second sentence.".data)).get? 1 =
      some ⟨"Second sentence.".data, 16, 32, 1⟩ := by
  refine ⟨by decide, by decide, by decide⟩

/-- Claim C6: the sentence table satisfies the ordering invariant
(consecutive spans do not overlap, the first start is non-negative,
`sentence[i].index = i`) and `update_position` never modifies the text
or rebuilds the table (all other operations are pure functions of the
state in this embedding). -/
theorem C6_table_invariant (t : List Char) :
    (∀ i a b, (mkTTSHighlighter t).sentences.get? i = some a →
        (mkTTSHighlighter t).sentences.get? (i + 1) = some b →
        a.stop ≤ b.start) ∧
    (∀ a, (mkTTSHighlighter t).sentences.get? 0 = some a → 0 ≤ a.start) ∧
    (∀ i a, (mkTTSHighlighter t).sentences.get? i = some a → a.index = i) ∧
    (∀ x, (update_position (mkTTSHighlighter t) x).text =
        (mkTTSHighlighter t).text ∧
      (update_position (mkTTSHighlighter t) x).sentences =
        (mkTTSHighlighter t).sentences) := by
  refine ⟨?_, fun a _ => Nat.zero_le _, split_sentences_index t,
    fun x => ⟨rfl, rfl⟩⟩
  intro i a b ha0 hb0
  have ha : (split_sentences t).get? i = some a := ha0
  have hb : (split_sentences t).get? (i + 1) = some b := hb0
  have hchain := split_sentences_chain t
  rw [List.chain'_iff_get] at hchain
  have hlb : i + 1 < (split_sentences t).length := by
    by_contra hcon
    rw [List.get?_eq_none.mpr (by omega)] at hb
    cases hb
  have hR := hchain i (by omega)
  rw [List.get?_eq_get (by omega : i < (split_sentences t).length)] at ha
  rw [List.get?_eq_get hlb] at hb
  injection ha with ha'
  injection hb with hb'
  rw [← ha', ← hb']
  exact hR

/-- Witness for C6 on a concrete tracker. -/
theorem C6_witness :
    (Sentence.mk ("A.".data) 0 2 0).stop ≤ (Sentence.mk ("B.".data) 3 5 1).start ∧
    0 ≤ (Sentence.mk ("A.".data) 0 2 0).start ∧
    (Sentence.mk ("B.".data) 3 5 1).index = 1 := by
  exact ⟨(C6_table_invariant ("A. B.".data)).1 0 _ _ (by decide) (by decide),
    (C6_table_invariant ("A. B.".data)).2.1 _ (by decide),
    (C6_table_invariant ("A. B.".data)).2.2.1 1 _ (by decide)⟩

/-- Claim C7: invalid lookups return sentinels and never raise:
out-of-range `get_sentence_by_index` is `none` (and in-range returns the
sentence with matching index), `get_sentence_for_offset` on a tracker
with no sentences is `-1` for every argument, and
`get_text_from_sentence` at the NOT_FOUND index `-1` is the empty
string. -/
theorem C7_sentinel_spec (t : List Char) (idx x : Int) :
    (¬(0 ≤ idx ∧ idx < ((mkTTSHighlighter t).sentences.length : Int)) →
      get_sentence_by_index (mkTTSHighlighter t) idx = none) ∧
    (0 ≤ idx → idx < ((mkTTSHighlighter t).sentences.length : Int) →
      ∃ s, get_sentence_by_index (mkTTSHighlighter t) idx = some s ∧
        s.index = idx.toNat) ∧
    ((mkTTSHighlighter t).sentences = [] →
      get_sentence_for_offset (mkTTSHighlighter t) x = -1) ∧
    get_text_from_sentence (mkTTSHighlighter t) (-1) = [] := by
  refine ⟨?_, ?_, fun hnil => gsfo_notfound t x (Or.inl hnil), ?_⟩
  · intro h
    unfold get_sentence_by_index
    rw [if_neg h]
  · intro h0 h1
    have hlt : idx.toNat < (mkTTSHighlighter t).sentences.length := by omega
    refine ⟨(mkTTSHighlighter t).sentences.get ⟨idx.toNat, hlt⟩, ?_, ?_⟩
    · unfold get_sentence_by_index
      rw [if_pos ⟨h0, h1⟩]
      exact List.get?_eq_get hlt
    · exact split_sentences_index t idx.toNat _ (List.get?_eq_get hlt)
  · unfold get_text_from_sentence get_sentence_by_index
    rw [if_neg (by omega)]

/-- Witness for C7 on concrete trackers. -/
theorem C7_witness :
    get_sentence_by_index (mkTTSHighlighter ("Hi.".data)) 5 = none ∧
    (∃ s, get_sentence_by_index (mkTTSHighlighter ("Hi.".data)) 0 = some s ∧
      s.index = (0 : Int).toNat) ∧
    get_sentence_for_offset (mkTTSHighlighter []) 3 = -1 ∧
    get_text_from_sentence (mkTTSHighlighter ("Hi.".data)) (-1) = [] := by
  exact ⟨(C7_sentinel_spec ("Hi.".data) 5 0).1 (by decide),
    (C7_sentinel_spec ("Hi.".data) 0 0).2.1 (by decide) (by decide),
    (C7_sentinel_spec [] 0 3).2.2.1 (by decide),
    (C7_sentinel_spec ("Hi.".data) 0 0).2.2.2⟩

/-- Claim C8: `update_position` sets the cursor to `max 0 offset` (so
`-5` clamps to 0) and has no other effect: text, sentence table, and
every query result are unchanged. -/
theorem C8_update_position_frame (h : TTSHighlighter) (x : Int) :
    (update_position h x).current_position = max 0 x ∧
    (update_position h (-5)).current_position = 0 ∧
    (update_position h x).text = h.text ∧
    (update_position h x).sentences = h.sentences ∧
    (∀ y, get_sentence_for_offset (update_position h x) y =
      get_sentence_for_offset h y) ∧
    (∀ s e, get_word_offset (update_position h x) s e =
      get_word_offset h s e) ∧
    (∀ i, get_sentence_by_index (update_position h x) i =
      get_sentence_by_index h i) ∧
    (∀ i, get_text_from_sentence (update_position h x) i =
      get_text_from_sentence h i) ∧
    sentence_count (update_position h x) = sentence_count h := by
  exact ⟨rfl, by norm_num [update_position], rfl, rfl, fun y => rfl,
    fun s e => rfl, fun i => rfl, fun i => rfl, rfl⟩

/-- Claim C9: for a valid index, `get_text_from_sentence` returns the
original text from that sentence's start offset to the end; on
`"First. Second. Third."` index 1 yields `"Second. Third."`, which does
not contain `"First."`. -/
theorem C9_text_from_sentence_spec :
    (∀ (t : List Char) (idx : Int), 0 ≤ idx →
        idx < ((mkTTSHighlighter t).sentences.length : Int) →
        ∃ s, (mkTTSHighlighter t).sentences.get? idx.toNat = some s ∧
          get_text_from_sentence (mkTTSHighlighter t) idx = t.drop s.start) ∧
    get_text_from_sentence (mkTTSHighlighter ("First. Second. Third.".data)) 1 =
      "Second. Third.".data ∧
    ¬ ("First.".data <:+:
        get_text_from_sentence (mkTTSHighlighter ("First. Second. Third.".data)) 1) := by
  refine ⟨?_, by decide, by decide⟩
  intro t idx h0 h1
  have hlt : idx.toNat < (mkTTSHighlighter t).sentences.length := by omega
  refine ⟨(mkTTSHighlighter t).sentences.get ⟨idx.toNat, hlt⟩,
    List.get?_eq_get hlt, ?_⟩
  have hby : get_sentence_by_index (mkTTSHighlighter t) idx =
      some ((mkTTSHighlighter t).sentences.get ⟨idx.toNat, hlt⟩) := by
    unfold get_sentence_by_index
    rw [if_pos ⟨h0, h1⟩]
    exact List.get?_eq_get hlt
  unfold get_text_from_sentence
  rw [hby]
  rfl

/-- Witness for C9 on a concrete tracker. -/
theorem C9_witness :
    ∃ s, (mkTTSHighlighter ("A. B.".data)).sentences.get? (1 : Int).toNat = some s ∧
      get_text_from_sentence (mkTTSHighlighter ("A. B.".data)) 1 =
        ("A. B.".data).drop s.start := by
  exact C9_text_from_sentence_spec.1 ("A. B.".data) 1 (by decide) (by decide)

/-- Claim C10: every retained sentence has in-bounds offsets
`0 ≤ start < end ≤ len(t)` and a non-empty text containing at least one
non-whitespace character. -/
theorem C10_sentence_wellformed (t : List Char) (s : Sentence)
    (hs : s ∈ (mkTTSHighlighter t).sentences) :
    0 ≤ s.start ∧ s.start < s.stop ∧ s.stop ≤ t.length ∧
      s.text ≠ [] ∧ ∃ c ∈ s.text, pyIsSpace c = false := by
  have hok := split_sentences_ok t s hs
  exact ⟨Nat.zero_le _, hok.1, hok.2.1, hok.2.2.1, hok.2.2.2⟩

/-- Witness for C10 on a concrete tracker. -/
theorem C10_witness :
    0 ≤ (Sentence.mk ("Hi.".data) 0 3 0).start ∧
      (Sentence.mk ("Hi.".data) 0 3 0).start <
        (Sentence.mk ("Hi.".data) 0 3 0).stop ∧
      (Sentence.mk ("Hi.".data) 0 3 0).stop ≤ ("Hi.".data).length ∧
      (Sentence.mk ("Hi.".data) 0 3 0).text ≠ [] ∧
      ∃ c ∈ (Sentence.mk ("Hi.".data) 0 3 0).text, pyIsSpace c = false := by
  exact C10_sentence_wellformed ("Hi.".data) _ (by decide)


end MarkdownTTS
